import Mathlib

/-!
Verification of the PhotoOrg ingestion pipeline.

Shallow embedding of the repository's core: the scanner, the per-file
pipeline (`FileProcessor._process_single_file` / `_organize_file` /
`_is_duplicate`), the collision-safe copy helper (`FileUtils.safe_copy`),
the tracking store (`DatabaseManager`), and the configuration validation
(`PhotoOrg.validate_config` / `main`).

Paths are modelled as lists of components, file contents as lists of bytes,
and the content digest (sha256 in the source, computed on CPU or GPU with
identical output) as the content itself: the model only needs the digest to
be deterministic and content-addressed.  SQLite is modelled as the
append-only list of rows of the `files` table.  Storage-layer faults and
copy I/O errors are out of scope of the claims treated here and are not
modelled.
-/

/-- A filesystem path, as its list of components (root first). -/
abbrev Fpath := List String

/-- A content digest.  The source uses sha256; the model identifies the
digest with the file content, which keeps the two properties the code
relies on: determinism and content-addressing. -/
abbrev Digest := List Nat

/-- The `status` column values the repository writes into the `files`
table, plus `existing`, which the spec assigns to merge-mode pre-indexed
rows. -/
inductive Status where
  | copied
  | duplicate
  | simulated
  | error
  | unsupported
  | existing
deriving DecidableEq, Repr

/-- One row of the `files` table (`DatabaseManager._initialize_schema`).
`insert_unprocessed_file` leaves every column but `original_path`,
`status` and `notes` NULL, hence the `Option` fields and defaults. -/
structure FileRecord where
  originalPath : Fpath
  hash : Option Digest := none
  year : Option String := none
  month : Option String := none
  mediaType : Option String := none
  status : Status
  destinationPath : Option Fpath := none
  finalName : Option String := none
  notes : String := ""
deriving DecidableEq, Repr

/-- The tracking store: the `files` table as an append-only list. -/
abbrev DB := List FileRecord

/-- The filesystem: regular files with contents, and directories. -/
structure FS where
  files : List (Fpath × List Nat)
  dirs : List Fpath
deriving DecidableEq, Repr

/-- Every path present in the filesystem. -/
def FS.allPaths (fs : FS) : List Fpath := fs.files.map Prod.fst ++ fs.dirs

/-- `Path.exists()`. -/
def FS.existsPath (fs : FS) (p : Fpath) : Bool := decide (p ∈ fs.allPaths)

/-- `Path.is_file()`. -/
def FS.isFile (fs : FS) (p : Fpath) : Bool := decide (p ∈ fs.files.map Prod.fst)

/-- `Path.is_dir()`. -/
def FS.isDir (fs : FS) (p : Fpath) : Bool := decide (p ∈ fs.dirs)

/-- Read a file's content (used by the hash computation and by the copy). -/
def FS.read (fs : FS) (p : Fpath) : Option (List Nat) :=
  (fs.files.find? (fun e => decide (e.1 = p))).map Prod.snd

/-- `mkdir(parents=True, exist_ok=True)`: records the directory. -/
def FS.mkdirP (fs : FS) (p : Fpath) : FS :=
  { fs with dirs := fs.dirs ++ [p] }

/-- The last path component (`Path.name`). -/
def fileName (p : Fpath) : String := p.getLastD ""

/-- Index of the last '.' in a name, as `str.rfind` computes it. -/
def lastDotIdx (cs : List Char) : Option Nat :=
  ((List.range cs.length).reverse).find? (fun i => decide (cs.getD i ' ' = '.'))

/-- `PurePath.stem` / `PurePath.suffix` on a name's character list: split at
the last dot when it is neither the first nor the last character. -/
def splitStemSuffixL (cs : List Char) : List Char × List Char :=
  match lastDotIdx cs with
  | some i => if 0 < i ∧ i + 1 < cs.length then (cs.take i, cs.drop i) else (cs, [])
  | none => (cs, [])

/-- `(Path(name).stem, Path(name).suffix)`. -/
def splitStemSuffix (s : String) : String × String :=
  ((splitStemSuffixL s.toList).1.asString, (splitStemSuffixL s.toList).2.asString)

/-- `Path.suffix` of a path's last component. -/
def pathSuffix (p : Fpath) : String := (splitStemSuffix (fileName p)).2

/-- `str.lower()` as used on extension strings (ASCII extensions). -/
def lowerStr (s : String) : String := (s.toList.map Char.toLower).asString

/-- The candidate name the `safe_copy` loop builds from the current
candidate and counter: `stem__counter` plus the current suffix.  Note the
stem is recomputed from the current candidate, not from the original
base name (`FileUtils.safe_copy`, line 10). -/
def candNext (name : String) (k : Nat) : String :=
  (splitStemSuffix name).1 ++ "__" ++ Nat.repr k ++ (splitStemSuffix name).2

/-- The `while dest_file.exists()` loop of `FileUtils.safe_copy`, with
enough fuel to pass every stored path (the candidates strictly grow, so
`|allPaths| + 1` probes must reach a fresh name). -/
def safeCopyNameGo (fs : FS) (destDir : Fpath) : Nat → String → Nat → String
  | 0, name, _ => name
  | Nat.succ fuel, name, k =>
      if fs.existsPath (destDir ++ [name]) then
        safeCopyNameGo fs destDir fuel (candNext name k) (k + 1)
      else name

/-- The final name `FileUtils.safe_copy` writes under `destDir`. -/
def safeCopyName (fs : FS) (destDir : Fpath) (base : String) : String :=
  safeCopyNameGo fs destDir (fs.allPaths.length + 1) base 1

/-- `FileUtils.safe_copy(src_path, dest_dir, base_name)`: pick the first
free candidate name, copy the content there (`shutil.copy2`), return the
written path. -/
def safeCopy (fs : FS) (srcPath destDir : Fpath) (baseName : String) : FS × Fpath :=
  let destFile := destDir ++ [safeCopyName fs destDir baseName]
  ({ fs with files := fs.files ++ [(destFile, (fs.read srcPath).getD [])] }, destFile)

/-- The application configuration dictionary, restricted to what the hash
path consults (`System Info -> gpu_available`); the digest value itself is
independent of it. -/
structure Config where
  gpuAvailable : Bool := false
deriving DecidableEq, Repr

/-- `HashUtils.compute_hash(file_path, config)` =
`HashUtilsGPU.compute_hash`: returns `(str(path), digest)` on success and
`(str(path), None)` when the content cannot be read
(`_compute_hash_cpu`, and the GPU path falls back to it).  GPU and CPU
produce the same sha256, so the configuration does not affect the digest. -/
def computeHash (fs : FS) (p : Fpath) (_cfg : Config) : Fpath × Option Digest :=
  (p, fs.read p)

/-- The `FileProcessor` instance state.  `__init__` receives `config` as a
parameter but never executes `self.config = config`, so the attribute is
absent on every instance built by `__init__`: `config?` is the attribute
slot, `none` meaning absent. -/
structure FileProcessor where
  config? : Option Config
  sourceDir : Fpath
  destDir : Fpath
  supportedExtensions : List String
  imageExtensions : List String
  videoExtensions : List String
  photographicPrefixes : List String
  excludeHiddenDirs : Bool
  excludePatterns : List String
  dryRun : Bool
deriving DecidableEq, Repr

/-- `FileProcessor.__init__`: lowercases the extension lists and stores
the flags; the `config` argument is accepted and dropped (no
`self.config = config` anywhere in `__init__`). -/
def FileProcessor.init (_config : Config) (sourceDir destDir : Fpath)
    (supportedExtensions imageExtensions videoExtensions : List String)
    (photographicPrefixes : List String) (excludeHiddenDirs : Bool)
    (excludePatterns : List String) (dryRun : Bool) : FileProcessor :=
  { config? := none
  , sourceDir := sourceDir
  , destDir := destDir
  , supportedExtensions := supportedExtensions.map lowerStr
  , imageExtensions := imageExtensions.map lowerStr
  , videoExtensions := videoExtensions.map lowerStr
  , photographicPrefixes := photographicPrefixes
  , excludeHiddenDirs := excludeHiddenDirs
  , excludePatterns := excludePatterns
  , dryRun := dryRun }

/-- `FileProcessor._is_duplicate`: `SELECT COUNT(*) FROM files WHERE
hash = ?`.  Binding `None` compares `hash = NULL`, which matches no row in
SQL, so a null digest is never reported as a duplicate. -/
def isDuplicate (db : DB) (h : Option Digest) : Bool :=
  match h with
  | none => false
  | some d => db.any (fun r => decide (r.hash = some d))

/-- The date-based destination directory of `_organize_file`
(lines 369-372). -/
def organizeDestDir (fp : FileProcessor) (mediaType year month : String) : Fpath :=
  if year = "Unknown" || month = "Unknown" then fp.destDir ++ ["ToReview", mediaType]
  else fp.destDir ++ [mediaType, year, month]

/-- The row `_organize_file` inserts (line 399-410). -/
def organizeRecord (filePath : Fpath) (fileHash : Option Digest)
    (year month mediaType : String) (status : Status) (finalPath : Fpath) : FileRecord :=
  { originalPath := filePath
  , hash := fileHash
  , year := some year
  , month := some month
  , mediaType := some mediaType
  , status := status
  , destinationPath := some finalPath
  , finalName := some (fileName finalPath) }

/-- `_organize_file` from the duplicate decision on (lines 376-412): the
placement decision, the (real or skipped) copy, and the record append.
`isDup` is the value the duplicate lookup returned. -/
def organizeCommit (fp : FileProcessor) (fs : FS) (db : DB) (filePath : Fpath)
    (mediaType year month : String) (fileHash : Option Digest) (isDup : Bool) :
    Status × DB × FS :=
  if fp.dryRun then
    let finalPath :=
      if isDup then fp.destDir ++ [mediaType ++ "_DUPLICATES", fileName filePath]
      else organizeDestDir fp mediaType year month ++ [fileName filePath]
    let status := if isDup then Status.duplicate else Status.simulated
    (status, db ++ [organizeRecord filePath fileHash year month mediaType status finalPath], fs)
  else
    let targetDir :=
      if isDup then fp.destDir ++ [mediaType ++ "_DUPLICATES"]
      else organizeDestDir fp mediaType year month
    let fs1 := fs.mkdirP targetDir
    let copied := safeCopy fs1 filePath targetDir (fileName filePath)
    let status := if isDup then Status.duplicate else Status.copied
    (status, db ++ [organizeRecord filePath fileHash year month mediaType status copied.2], copied.1)

/-- `FileProcessor._organize_file`: duplicate lookup (line 374, outside
the database lock) followed by the commit. -/
def organizeFile (fp : FileProcessor) (fs : FS) (db : DB) (filePath : Fpath)
    (mediaType year month : String) (fileHash : Option Digest) : Status × DB × FS :=
  organizeCommit fp fs db filePath mediaType year month fileHash (isDuplicate db fileHash)

/-- What a worker's `_process_single_file` call produces at the pool:
either the returned result dict (status + media type) or a propagated
exception (`raise` at line 343). -/
inductive ProcOutcome where
  | ok (status : Status) (mediaType : String)
  | raised (msg : String)
deriving DecidableEq, Repr

/-- The message of the `AttributeError` raised when `_process_single_file`
evaluates `self.config` (line 314) on an instance whose `__init__` never
stored it. -/
def attrErrMsg : String := "AttributeError: FileProcessor object has no attribute config"

/-- The row `insert_unprocessed_file(conn, path, "error", msg)` inserts
from the `except` block of `_process_single_file` (line 342). -/
def attrErrRecord (p : Fpath) : FileRecord :=
  { originalPath := p, status := Status.error, notes := attrErrMsg }

/-- `FileProcessor._process_single_file`.  Date extraction is the external
Date capability; it is passed in as `dateOf` (None meaning unresolvable,
mapped to the `"Unknown"` sentinels, line 325). -/
def processSingleFile (fp : FileProcessor) (fs : FS) (db : DB) (path : Fpath)
    (dateOf : Fpath → Option (String × String)) : ProcOutcome × DB × FS :=
  match fp.config? with
  | none =>
      (ProcOutcome.raised attrErrMsg, db ++ [attrErrRecord path], fs)
  | some cfg =>
      let media := if pathSuffix path ∈ fp.imageExtensions then "PHOTO" else "VIDEO"
      let fileHash := (computeHash fs path cfg).2
      let ym := (dateOf path).getD ("Unknown", "Unknown")
      let r := organizeFile fp fs db path media ym.1 ym.2 fileHash
      (ProcOutcome.ok r.1 media, r.2.1, r.2.2)

/-- `FileProcessor._process_files_parallel`: every discovered file goes
through `_process_single_file`; a propagated exception is absorbed at the
pool loop (line 277) and only counted.  Sequential model of the pool. -/
def processFilesParallel (fp : FileProcessor) (dateOf : Fpath → Option (String × String)) :
    List Fpath → FS → DB → DB × FS
  | [], fs, db => (db, fs)
  | p :: rest, fs, db =>
      let r := processSingleFile fp fs db p dateOf
      processFilesParallel fp dateOf rest r.2.2 r.2.1

/-- `str.startswith(prefixStr)` on a path component. -/
def strStartsWith (s pre : String) : Bool := decide (pre.toList <+: s.toList)

/-- `FileProcessor._should_skip_path`: hidden component anywhere in the
item's full path, or any configured pattern occurring as a substring of
the rendered path. -/
def shouldSkipPath (fp : FileProcessor) (p : Fpath) : Bool :=
  (fp.excludeHiddenDirs && p.any (fun part => strStartsWith part ".")) ||
  fp.excludePatterns.any (fun pat => decide (pat.toList <:+: (String.intercalate "/" p).toList))

/-- `FileProcessor._is_supported_file`: lowercased suffix in the supported
list. -/
def isSupportedName (exts : List String) (p : Fpath) : Bool :=
  decide (lowerStr (pathSuffix p) ∈ exts)

/-- `source_dir.rglob("*")`: every stored path strictly below the root. -/
def rglob (fs : FS) (root : Fpath) : List Fpath :=
  fs.allPaths.filter (fun p => decide (root <+: p) && decide (p ≠ root))

/-- The row `insert_unprocessed_file(conn, path, "unsupported", ...)`
inserts from `_collect_files` (line 199). -/
def unsupportedRecord (p : Fpath) : FileRecord :=
  { originalPath := p, status := Status.unsupported
  , notes := "Estensione non supportata" }

/-- The loop body of `_collect_files`: skip rule first, then files are
split into supported (queued) and unsupported (recorded synchronously). -/
def collectFilesGo (fp : FileProcessor) (fs : FS) :
    List Fpath → List Fpath × DB → List Fpath × DB
  | [], acc => acc
  | p :: rest, acc =>
      collectFilesGo fp fs rest
        (if shouldSkipPath fp p then acc
         else if fs.isFile p then
           if isSupportedName fp.supportedExtensions p then (acc.1 ++ [p], acc.2)
           else (acc.1, acc.2 ++ [unsupportedRecord p])
         else acc)

/-- `FileProcessor._collect_files`. -/
def collectFiles (fp : FileProcessor) (fs : FS) (db : DB) : List Fpath × DB :=
  collectFilesGo fp fs (rglob fs fp.sourceDir) ([], db)

/-- `FileProcessor.scan_directory`: collect, return early when nothing was
found (line 143-146), otherwise process the queue in the pool. -/
def scanDirectory (fp : FileProcessor) (dateOf : Fpath → Option (String × String))
    (fs : FS) (db : DB) : DB × FS :=
  let c := collectFiles fp fs db
  if c.1.isEmpty then (c.2, fs)
  else processFilesParallel fp dateOf c.1 fs c.2

/-- The `general` block computed by `DatabaseManager.get_statistics`
(lines 193-203): aggregation is a read-time query over the rows. -/
structure GeneralStats where
  totalFiles : Nat
  processedFiles : Nat
  duplicateFiles : Nat
  errorFiles : Nat
  unsupportedFiles : Nat
  photos : Nat
  videos : Nat
deriving DecidableEq, Repr

/-- `DatabaseManager.get_statistics`. -/
def getStatistics (db : DB) : GeneralStats :=
  { totalFiles := db.length
  , processedFiles :=
      db.countP (fun r => decide (r.status = Status.copied) || decide (r.status = Status.simulated))
  , duplicateFiles := db.countP (fun r => decide (r.status = Status.duplicate))
  , errorFiles := db.countP (fun r => decide (r.status = Status.error))
  , unsupportedFiles := db.countP (fun r => decide (r.status = Status.unsupported))
  , photos := db.countP (fun r => decide (r.mediaType = some "PHOTO"))
  , videos := db.countP (fun r => decide (r.mediaType = some "VIDEO")) }

/-- Where the tracking store lives: the SQLite file, or the transient
in-memory database selected for dry-run. -/
inductive DbTarget where
  | memory
  | onDisk (path : Fpath)
deriving DecidableEq, Repr

/-- `initialize_database` (PhotoOrg.py line 205):
`db_path = ":memory:" if dry_run else config["database"]`. -/
def initializeDatabase (databasePath : Fpath) (dryRun : Bool) : DbTarget :=
  if dryRun then DbTarget.memory else DbTarget.onDisk databasePath

/-- The filesystem effect of `DatabaseManager.__init__`: for a file-backed
store the parent directory is created (lines 33-35); the in-memory store
touches nothing. -/
def dbManagerInitFs (fs : FS) (target : DbTarget) : FS :=
  match target with
  | DbTarget.memory => fs
  | DbTarget.onDisk p => fs.mkdirP p.dropLast

/-- The configuration keys `validate_config` and `main` consume. -/
structure AppConfig where
  source : Fpath
  destination : Fpath
  database : Fpath
  log : Fpath
  supportedExtensions : List String
  imageExtensions : List String
  videoExtensions : List String
deriving Repr

/-- `validate_config` (PhotoOrg.py lines 33-89), after the key-presence
check: source must exist and be a directory, source and destination must
differ, the destination must not be inside the source
(`dest_path.relative_to(source_path)` succeeding), and — when the
destination exists — the source must not be inside the destination. -/
def validateConfig (fs : FS) (cfg : AppConfig) : Except String Unit :=
  if fs.existsPath cfg.source = false then
    Except.error "Directory sorgente non trovata"
  else if fs.isDir cfg.source = false then
    Except.error "Il percorso sorgente non e una directory"
  else if cfg.source = cfg.destination then
    Except.error "Directory sorgente e destinazione sono identiche"
  else if cfg.source.isPrefixOf cfg.destination then
    Except.error "La destinazione e una sottodirectory della sorgente"
  else if fs.existsPath cfg.destination && cfg.destination.isPrefixOf cfg.source then
    Except.error "La sorgente e una sottodirectory della destinazione"
  else
    Except.ok ()

/-- The processing phases `main` reaches (PhotoOrg.py lines 328-364): a
configuration error returns before logging, database and processor setup;
otherwise merge mode calls the destination pre-scan and every mode calls
`scan_directory`. -/
def mainPhases (fs : FS) (cfg : AppConfig) (mode : String) (dryRun : Bool) : List String :=
  match validateConfig fs cfg with
  | Except.error _ => []
  | Except.ok _ =>
      (if mode = "merge" && !dryRun then ["pre_scan_destination"] else []) ++ ["scan_directory"]

/-- The set of methods `FileProcessor` defines (file_processor.py): the
class body declares exactly these, and in particular no
`pre_scan_destination`, although `main` calls it in merge mode. -/
def fileProcessorMethods : List String :=
  ["__init__", "_detect_optimal_workers", "_get_thread_connection",
   "_cleanup_connections", "scan_directory", "_collect_files",
   "_process_files_parallel", "_process_single_file", "_organize_file",
   "_is_duplicate", "_should_skip_path", "_is_supported_file",
   "_print_final_stats"]

/-- Modelled from the spec: `pre_scan_destination` is invoked by `main`
in merge mode but is not defined anywhere in the repository; the spec
(§4.5 Merge) says the destination tree is walked and every already-present
supported file is fingerprinted and inserted into the Duplicate Index with
status `Existing` (digest-only pre-seeding) before the source scan. -/
def preScanDestination (fp : FileProcessor) (cfg : Config) (fs : FS) (db : DB) : DB :=
  db ++
    (fs.files.filter
        (fun e => fp.destDir.isPrefixOf e.1 && isSupportedName fp.supportedExtensions e.1)).map
      (fun e =>
        { originalPath := e.1
        , hash := (computeHash fs e.1 cfg).2
        , status := Status.existing })

/-- A statement of the per-file work as the worker pool sees it: the
fields `_process_single_file` has in hand when `_organize_file` runs. -/
structure WTask where
  path : Fpath
  media : String
  year : String
  month : String
  hash : Option Digest
deriving DecidableEq, Repr

/-- Where a worker stands in `_organize_file`: before the duplicate
lookup (line 374, not under `_db_lock`), between the lookup and the
record append (line 399, under `_db_lock`), or finished.  The two
database accesses are separately atomic but not jointly. -/
inductive WPhase where
  | beforeCheck
  | beforeInsert (sawDuplicate : Bool)
  | done
deriving DecidableEq, Repr

/-- One atomic step of a worker against the shared store. -/
def workerStep (fp : FileProcessor) (t : WTask) (ph : WPhase) (db : DB) (fs : FS) :
    WPhase × DB × FS :=
  match ph with
  | WPhase.beforeCheck => (WPhase.beforeInsert (isDuplicate db t.hash), db, fs)
  | WPhase.beforeInsert d =>
      let r := organizeCommit fp fs db t.path t.media t.year t.month t.hash d
      (WPhase.done, r.2.1, r.2.2)
  | WPhase.done => (WPhase.done, db, fs)

/-- Run an interleaving of worker steps: the schedule names which worker
takes the next atomic step. -/
def runSchedule (fp : FileProcessor) (tasks : List WTask) :
    List Nat → List WPhase × DB × FS → List WPhase × DB × FS
  | [], st => st
  | i :: rest, st =>
      match tasks.get? i, st.1.get? i with
      | some t, some ph =>
          let r := workerStep fp t ph st.2.1 st.2.2
          runSchedule fp tasks rest (st.1.set i r.1, r.2.1, r.2.2)
      | _, _ => runSchedule fp tasks rest st

/-- A primary (first-seen) status: a real copy or its dry-run analogue. -/
def primaryStatusB (s : Status) : Bool :=
  decide (s = Status.copied) || decide (s = Status.simulated)

/-- The rows carrying a given digest, in insertion order. -/
def recordsWithDigest (db : DB) (d : Digest) : List FileRecord :=
  db.filter (fun r => decide (r.hash = some d))

/-- The digest-uniqueness check for one digest: no row yet, or the
first-inserted row is primary and every later row is a `Duplicate`. -/
def digestOkB (db : DB) (d : Digest) : Bool :=
  match recordsWithDigest db d with
  | [] => true
  | r :: rs => primaryStatusB r.status && rs.all (fun x => decide (x.status = Status.duplicate))

/-- The store invariant of spec §3/§8 over all non-null digests. -/
def digestInvariant (db : DB) : Prop := ∀ d : Digest, digestOkB db d = true

/-- There is no `existing` row among the statuses this code base ever
inserts; used to relate the five reported counters to the row count. -/
def statusWF (db : DB) : Prop := ∀ r ∈ db, r.status ≠ Status.existing

/-- A well-formed filesystem: every existing path's proper ancestors
exist too (as they do for a real directory tree). -/
def FS.wf (fs : FS) : Prop :=
  ∀ p, fs.existsPath p = true →
    ∀ q, q.isPrefixOf p = true → q ≠ p → fs.existsPath q = true

/-- The filesystem of the C3 counterexample: the source file is absent
(unreadable), so fingerprinting fails. -/
def fsC3 : FS := ⟨[], [[]]⟩

/-- The processor of the C3 counterexample: dry-run, with the `config`
attribute present so that the pipeline reaches the fingerprint step. -/
def fpC3 : FileProcessor :=
  { config? := some {}
  , sourceDir := ["s"], destDir := ["d"]
  , supportedExtensions := [".jpg"], imageExtensions := [".jpg"]
  , videoExtensions := [], photographicPrefixes := []
  , excludeHiddenDirs := true, excludePatterns := [], dryRun := true }

/-- The processor of the C5 counterexample (dry-run; `config` attribute
present so the pipeline reaches `_organize_file`). -/
def fpC5 : FileProcessor :=
  { config? := some {}
  , sourceDir := ["s"], destDir := ["d"]
  , supportedExtensions := [".jpg"], imageExtensions := [".jpg"]
  , videoExtensions := [], photographicPrefixes := []
  , excludeHiddenDirs := true, excludePatterns := [], dryRun := true }

/-- Two workers holding byte-identical files (equal digests). -/
def tasksC5 : List WTask :=
  [⟨["s", "x.jpg"], "PHOTO", "2020", "05", some [7]⟩,
   ⟨["s", "y.jpg"], "PHOTO", "2020", "05", some [7]⟩]

/-- How many stored paths the `safe_copy` loop can still collide with: the
entries of `destDir` whose name is at least as long as the current
candidate.  Each collision makes the candidate strictly longer, so this
measure strictly decreases. -/
def probeCount (fs : FS) (destDir : Fpath) (name : String) : Nat :=
  fs.allPaths.countP (fun q => decide (q.dropLast = destDir) &&
    decide (name.length ≤ (q.getLastD "").length))

/-- The pure candidate sequence the loop walks: start from the base name,
then repeatedly re-split the previous candidate and append `__k`. -/
def iterCand (base : String) : Nat → String
  | 0 => base
  | Nat.succ j => candNext (iterCand base j) (j + 1)

/-- Concrete instance for the C1 witness. -/
def fpW1 : FileProcessor :=
  { config? := none, sourceDir := ["src"], destDir := ["dst"]
  , supportedExtensions := [".jpg"], imageExtensions := [".jpg"]
  , videoExtensions := [], photographicPrefixes := []
  , excludeHiddenDirs := true, excludePatterns := [], dryRun := false }

/-- Destination holding `a.jpg`, source holding the byte-identical
`b.jpg`. -/
def fsW1 : FS :=
  ⟨[(["dst", "a.jpg"], [1, 2]), (["src", "b.jpg"], [1, 2])], [[], ["dst"], ["src"]]⟩

/-- Concrete instance for the C4 witness. -/
def fpW4 : FileProcessor :=
  FileProcessor.init {} ["s"] ["d"] [".jpg"] [".jpg"] [] [] true [] false

/-- A source with one supported and one unsupported file. -/
def fsW4 : FS := ⟨[(["s", "a.jpg"], [1]), (["s", "b.txt"], [2])], [[], ["s"]]⟩

/-- Concrete instance for the C5 witness (dry-run, `config` present). -/
def fpW5 : FileProcessor :=
  { config? := some {}, sourceDir := ["s"], destDir := ["d"]
  , supportedExtensions := [".jpg"], imageExtensions := [".jpg"]
  , videoExtensions := [], photographicPrefixes := []
  , excludeHiddenDirs := true, excludePatterns := [], dryRun := true }

/-- A source with one readable file. -/
def fsW5 : FS := ⟨[(["s", "x.jpg"], [3])], [[], ["s"]]⟩

/-- Concrete instance for the C6 witness. -/
def fpW6 : FileProcessor :=
  { config? := none, sourceDir := ["s"], destDir := ["d"]
  , supportedExtensions := [".jpg"], imageExtensions := [".jpg"]
  , videoExtensions := [], photographicPrefixes := []
  , excludeHiddenDirs := true, excludePatterns := [], dryRun := true }

/-- A source with a supported file, so the dry run is not vacuous. -/
def fsW6 : FS := ⟨[(["s", "x.jpg"], [4])], [[], ["s"]]⟩

/-- The C8 witness filesystem: only the root directory exists, so the
configured source is missing. -/
def fsW8 : FS := ⟨[], [[]]⟩

/-- The C8 witness configuration: a source that does not exist. -/
def cfgW8 : AppConfig :=
  { source := ["s"], destination := ["dd"], database := ["db"], log := ["log"]
  , supportedExtensions := [], imageExtensions := [], videoExtensions := [] }

/-- The C9 witness filesystem: the destination already holds `a.jpg`. -/
def fsW9 : FS := ⟨[(["d", "a.jpg"], [5])], [["d"]]⟩

/-- The C10 witness processor: the source root sits under a hidden
directory. -/
def fpW10 : FileProcessor :=
  { config? := none, sourceDir := [".hidden", "src"], destDir := ["d"]
  , supportedExtensions := [".jpg"], imageExtensions := [".jpg"]
  , videoExtensions := [], photographicPrefixes := []
  , excludeHiddenDirs := true, excludePatterns := [], dryRun := false }

/-- The C10 witness filesystem: a supported file inside the hidden
subtree. -/
def fsW10 : FS :=
  ⟨[([".hidden", "src", "a.jpg"], [1])], [[], [".hidden"], [".hidden", "src"]]⟩

/-- The destination of the C9 counterexample already holds `a.jpg` and
`a__1.jpg`. -/
def fsC9 : FS := ⟨[(["d", "a.jpg"], []), (["d", "a__1.jpg"], [])], [["d"]]⟩

theorem dropLast_concat2 {α : Type} (l : List α) (a : α) : (l ++ [a]).dropLast = l := by
  simp

theorem processFilesParallel_noConfig (fp : FileProcessor) (hc : fp.config? = none)
    (dateOf : Fpath → Option (String × String)) :
    ∀ (files : List Fpath) (fs : FS) (db : DB),
      processFilesParallel fp dateOf files fs db = (db ++ files.map attrErrRecord, fs) := by
  intro files
  induction files with
  | nil => intro fs db; simp [processFilesParallel]
  | cons p rest ih =>
      intro fs db
      simp only [processFilesParallel, processSingleFile, hc, List.map_cons]
      rw [ih]
      simp

theorem processSingleFile_noConfig (fp : FileProcessor) (hc : fp.config? = none)
    (dateOf : Fpath → Option (String × String)) (fs : FS) (db : DB) (p : Fpath) :
    processSingleFile fp fs db p dateOf =
      (ProcOutcome.raised attrErrMsg, db ++ [attrErrRecord p], fs) := by
  simp [processSingleFile, hc]

theorem organizeCommit_dry_fs (fp : FileProcessor) (hdry : fp.dryRun = true)
    (fs : FS) (db : DB) (path : Fpath) (media year month : String)
    (h : Option Digest) (d : Bool) :
    (organizeCommit fp fs db path media year month h d).2.2 = fs := by
  simp [organizeCommit, hdry]

theorem processSingleFile_dry_fs (fp : FileProcessor) (hdry : fp.dryRun = true)
    (dateOf : Fpath → Option (String × String)) (fs : FS) (db : DB) (p : Fpath) :
    (processSingleFile fp fs db p dateOf).2.2 = fs := by
  cases hc : fp.config? with
  | none => simp [processSingleFile, hc]
  | some cfg =>
      simp only [processSingleFile, hc, organizeFile]
      exact organizeCommit_dry_fs fp hdry _ _ _ _ _ _ _ _

theorem processFilesParallel_dry_fs (fp : FileProcessor) (hdry : fp.dryRun = true)
    (dateOf : Fpath → Option (String × String)) :
    ∀ (files : List Fpath) (fs : FS) (db : DB),
      (processFilesParallel fp dateOf files fs db).2 = fs := by
  intro files
  induction files with
  | nil => intro fs db; simp [processFilesParallel]
  | cons p rest ih =>
      intro fs db
      simp only [processFilesParallel]
      rw [processSingleFile_dry_fs fp hdry]
      exact ih _ _

theorem scanDirectory_dry_fs (fp : FileProcessor) (hdry : fp.dryRun = true)
    (dateOf : Fpath → Option (String × String)) (fs : FS) (db : DB) :
    (scanDirectory fp dateOf fs db).2 = fs := by
  unfold scanDirectory
  by_cases h : (collectFiles fp fs db).1.isEmpty
  · simp [h]
  · simp only [h, if_neg, Bool.false_eq_true, ite_false]
    exact processFilesParallel_dry_fs fp hdry dateOf _ _ _

/-- C2.  `FileProcessor.__init__` accepts `config` but never stores it on
the instance, and `_process_single_file` reads `self.config`; hence for
every file submitted to the worker pool an `AttributeError` propagates,
an `error` row is inserted for that file, and the run records every
submitted file as `error` — never as copied, simulated or duplicate. -/
theorem c2_missing_config_all_errors (config : Config) (sourceDir destDir : Fpath)
    (se ie ve pp : List String) (eh : Bool) (ep : List String) (dr : Bool)
    (dateOf : Fpath → Option (String × String)) (fs : FS) (db : DB) (p : Fpath)
    (files : List Fpath) :
    (FileProcessor.init config sourceDir destDir se ie ve pp eh ep dr).config? = none ∧
    processSingleFile (FileProcessor.init config sourceDir destDir se ie ve pp eh ep dr)
        fs db p dateOf =
      (ProcOutcome.raised attrErrMsg, db ++ [attrErrRecord p], fs) ∧
    processFilesParallel (FileProcessor.init config sourceDir destDir se ie ve pp eh ep dr)
        dateOf files fs db =
      (db ++ files.map attrErrRecord, fs) ∧
    (∀ r ∈ files.map attrErrRecord, r.status = Status.error) := by
  refine ⟨rfl, processSingleFile_noConfig _ rfl _ _ _ _,
    processFilesParallel_noConfig _ rfl _ _ _ _, ?_⟩
  intro r hr
  obtain ⟨p', _, hp⟩ := List.mem_map.mp hr
  rw [← hp]
  rfl

/-- C3 (amended).  When fingerprinting fails (`compute_hash` returns a
`None` digest), the per-file pipeline does not emit an `Error` record and
does not stop: the null digest reaches the duplicate lookup, which never
reports a duplicate for a null digest, so the file is placed and recorded
with status `copied` (or `simulated` in dry-run) and a null digest. -/
theorem c3_amended_none_digest_flows (fp : FileProcessor) (fs : FS) (db : DB)
    (path : Fpath) (media year month : String) :
    isDuplicate db none = false ∧
    (organizeFile fp fs db path media year month none).1 =
      (if fp.dryRun then Status.simulated else Status.copied) ∧
    (∃ rec, (organizeFile fp fs db path media year month none).2.1 = db ++ [rec] ∧
      rec.hash = none ∧ rec.status ≠ Status.error) := by
  refine ⟨rfl, ?_, ?_⟩
  · by_cases hdry : fp.dryRun = true
    · simp [organizeFile, organizeCommit, isDuplicate, hdry]
    · simp only [Bool.not_eq_true] at hdry
      simp [organizeFile, organizeCommit, isDuplicate, hdry]
  · by_cases hdry : fp.dryRun = true
    · refine ⟨organizeRecord path none year month media Status.simulated
        (organizeDestDir fp media year month ++ [fileName path]), ?_, rfl, ?_⟩
      · simp [organizeFile, organizeCommit, isDuplicate, hdry]
      · simp [organizeRecord]
    · simp only [Bool.not_eq_true] at hdry
      refine ⟨organizeRecord path none year month media Status.copied
        (safeCopy (fs.mkdirP (organizeDestDir fp media year month)) path
          (organizeDestDir fp media year month) (fileName path)).2, ?_, rfl, ?_⟩
      · simp [organizeFile, organizeCommit, isDuplicate, hdry]
      · simp [organizeRecord]

/-- C7.  Placement policy of `_organize_file`: a duplicate goes under
`<mediaKind>_DUPLICATES` regardless of date; otherwise an unknown year or
month sends the file under `ToReview/<mediaKind>`, and a resolved date
under `<mediaKind>/<year>/<month>` — in dry-run and real mode alike. -/
theorem c7_placement_policy (fp : FileProcessor) (fs : FS) (db : DB) (path : Fpath)
    (media year month : String) (h : Option Digest) :
    ∃ rec, (organizeFile fp fs db path media year month h).2.1 = db ++ [rec] ∧
      rec.destinationPath.map List.dropLast =
        some (if isDuplicate db h then fp.destDir ++ [media ++ "_DUPLICATES"]
              else if year = "Unknown" || month = "Unknown" then
                fp.destDir ++ ["ToReview", media]
              else fp.destDir ++ [media, year, month]) := by
  cases hd : isDuplicate db h <;> by_cases hdry : fp.dryRun = true
  · refine ⟨organizeRecord path h year month media Status.simulated
      (organizeDestDir fp media year month ++ [fileName path]), ?_, ?_⟩
    · unfold organizeFile organizeCommit
      rw [hd, hdry]
      simp
    · simp [organizeRecord, dropLast_concat2, organizeDestDir]
  · simp only [Bool.not_eq_true] at hdry
    refine ⟨organizeRecord path h year month media Status.copied
      (safeCopy (fs.mkdirP (organizeDestDir fp media year month)) path
        (organizeDestDir fp media year month) (fileName path)).2, ?_, ?_⟩
    · unfold organizeFile organizeCommit
      rw [hd, hdry]
      simp
    · simp [organizeRecord, safeCopy, dropLast_concat2, organizeDestDir]
  · refine ⟨organizeRecord path h year month media Status.duplicate
      (fp.destDir ++ [media ++ "_DUPLICATES", fileName path]), ?_, ?_⟩
    · unfold organizeFile organizeCommit
      rw [hd, hdry]
      simp
    · have hsplit : fp.destDir ++ [media ++ "_DUPLICATES", fileName path] =
        (fp.destDir ++ [media ++ "_DUPLICATES"]) ++ [fileName path] := by simp
      have hdl : (fp.destDir ++ [media ++ "_DUPLICATES", fileName path]).dropLast =
          fp.destDir ++ [media ++ "_DUPLICATES"] := by
        rw [hsplit]
        exact dropLast_concat2 _ _
      simp [organizeRecord, hdl]
  · simp only [Bool.not_eq_true] at hdry
    refine ⟨organizeRecord path h year month media Status.duplicate
      (safeCopy (fs.mkdirP (fp.destDir ++ [media ++ "_DUPLICATES"])) path
        (fp.destDir ++ [media ++ "_DUPLICATES"]) (fileName path)).2, ?_, ?_⟩
    · unfold organizeFile organizeCommit
      rw [hd, hdry]
      simp
    · simp [organizeRecord, safeCopy, dropLast_concat2]

theorem collectFilesGo_skip_all (fp : FileProcessor) (fs : FS) :
    ∀ (l : List Fpath) (acc : List Fpath × DB),
      (∀ p ∈ l, shouldSkipPath fp p = true) → collectFilesGo fp fs l acc = acc := by
  intro l
  induction l with
  | nil => intro acc _; rfl
  | cons p rest ih =>
      intro acc h
      simp only [collectFilesGo, h p (List.mem_cons_self p rest), if_true]
      exact ih acc (fun q hq => h q (List.mem_cons_of_mem _ hq))

/-- C10.  `_should_skip_path` tests every component of each item's full
path, so with hidden-directory exclusion enabled, a dotted component
anywhere in the source root's own path makes every scanned item skip:
no file is queued, no unsupported row is written, and the run processes
zero files. -/
theorem c10_hidden_ancestor_skips_all (fp : FileProcessor) (fs : FS) (db : DB)
    (dateOf : Fpath → Option (String × String))
    (hh : fp.excludeHiddenDirs = true)
    (hdot : ∃ part ∈ fp.sourceDir, strStartsWith part "." = true) :
    collectFiles fp fs db = ([], db) ∧ scanDirectory fp dateOf fs db = (db, fs) := by
  obtain ⟨part, hmem, hstarts⟩ := hdot
  have hskip : ∀ p ∈ rglob fs fp.sourceDir, shouldSkipPath fp p = true := by
    intro p hp
    have hf := (List.mem_filter.mp hp).2
    rw [Bool.and_eq_true] at hf
    have hpre : fp.sourceDir <+: p := of_decide_eq_true hf.1
    have hpmem : part ∈ p := hpre.subset hmem
    unfold shouldSkipPath
    rw [hh, Bool.or_eq_true, Bool.true_and]
    exact Or.inl (List.any_eq_true.mpr ⟨part, hpmem, hstarts⟩)
  have hcol : collectFiles fp fs db = ([], db) :=
    collectFilesGo_skip_all fp fs _ _ hskip
  refine ⟨hcol, ?_⟩
  unfold scanDirectory
  rw [hcol]
  simp

theorem organizeCommit_record (fp : FileProcessor) (fs : FS) (db : DB) (path : Fpath)
    (media year month : String) (h : Option Digest) (d : Bool) :
    ∃ rec, (organizeCommit fp fs db path media year month h d).2.1 = db ++ [rec] ∧
      rec.hash = h ∧
      rec.status = (if d then Status.duplicate
                    else if fp.dryRun then Status.simulated else Status.copied) := by
  cases d <;> by_cases hdry : fp.dryRun = true
  · refine ⟨organizeRecord path h year month media Status.simulated
      (organizeDestDir fp media year month ++ [fileName path]), ?_, rfl, ?_⟩
    · unfold organizeCommit
      rw [hdry]
      simp
    · rw [hdry]
      rfl
  · simp only [Bool.not_eq_true] at hdry
    refine ⟨organizeRecord path h year month media Status.copied
      (safeCopy (fs.mkdirP (organizeDestDir fp media year month)) path
        (organizeDestDir fp media year month) (fileName path)).2, ?_, rfl, ?_⟩
    · unfold organizeCommit
      rw [hdry]
      simp
    · rw [hdry]
      rfl
  · refine ⟨organizeRecord path h year month media Status.duplicate
      (fp.destDir ++ [media ++ "_DUPLICATES", fileName path]), ?_, rfl, rfl⟩
    unfold organizeCommit
    rw [hdry]
    simp
  · simp only [Bool.not_eq_true] at hdry
    refine ⟨organizeRecord path h year month media Status.duplicate
      (safeCopy (fs.mkdirP (fp.destDir ++ [media ++ "_DUPLICATES"])) path
        (fp.destDir ++ [media ++ "_DUPLICATES"]) (fileName path)).2, ?_, rfl, rfl⟩
    unfold organizeCommit
    rw [hdry]
    simp

theorem statusWF_append_single (db : DB) (r : FileRecord) (hdb : statusWF db)
    (hr : r.status ≠ Status.existing) : statusWF (db ++ [r]) := by
  intro x hx
  rcases List.mem_append.mp hx with h | h
  · exact hdb x h
  · rw [List.mem_singleton.mp h]
    exact hr

theorem statusWF_organizeFile (fp : FileProcessor) (fs : FS) (db : DB) (path : Fpath)
    (media year month : String) (h : Option Digest) (hdb : statusWF db) :
    statusWF (organizeFile fp fs db path media year month h).2.1 := by
  unfold organizeFile
  obtain ⟨rec, hshape, _, hstatus⟩ :=
    organizeCommit_record fp fs db path media year month h (isDuplicate db h)
  rw [hshape]
  apply statusWF_append_single db rec hdb
  rw [hstatus]
  cases isDuplicate db h <;> cases fp.dryRun <;> simp

theorem statusWF_processSingleFile (fp : FileProcessor)
    (dateOf : Fpath → Option (String × String)) (fs : FS) (db : DB) (p : Fpath)
    (hdb : statusWF db) : statusWF (processSingleFile fp fs db p dateOf).2.1 := by
  cases hc : fp.config? with
  | none =>
      simp only [processSingleFile, hc]
      exact statusWF_append_single db _ hdb (by simp [attrErrRecord])
  | some cfg =>
      simp only [processSingleFile, hc]
      exact statusWF_organizeFile fp fs db p _ _ _ _ hdb

theorem statusWF_processFilesParallel (fp : FileProcessor)
    (dateOf : Fpath → Option (String × String)) :
    ∀ (files : List Fpath) (fs : FS) (db : DB), statusWF db →
      statusWF (processFilesParallel fp dateOf files fs db).1 := by
  intro files
  induction files with
  | nil => intro fs db hdb; exact hdb
  | cons p rest ih =>
      intro fs db hdb
      simp only [processFilesParallel]
      exact ih _ _ (statusWF_processSingleFile fp dateOf fs db p hdb)

theorem statusWF_collectFilesGo (fp : FileProcessor) (fs : FS) :
    ∀ (l : List Fpath) (acc : List Fpath × DB), statusWF acc.2 →
      statusWF (collectFilesGo fp fs l acc).2 := by
  intro l
  induction l with
  | nil => intro acc hacc; exact hacc
  | cons p rest ih =>
      intro acc hacc
      simp only [collectFilesGo]
      apply ih
      by_cases hskip : shouldSkipPath fp p = true
      · simp [hskip, hacc]
      · simp only [Bool.not_eq_true] at hskip
        by_cases hfile : fs.isFile p = true
        · by_cases hsupp : isSupportedName fp.supportedExtensions p = true
          · simp [hskip, hfile, hsupp, hacc]
          · simp only [Bool.not_eq_true] at hsupp
            simp only [hskip, hfile, hsupp]
            simp only [Bool.false_eq_true, if_false, if_true]
            exact statusWF_append_single _ _ hacc (by simp [unsupportedRecord])
        · simp only [Bool.not_eq_true] at hfile
          simp [hskip, hfile, hacc]

theorem statusWF_scanDirectory (fp : FileProcessor)
    (dateOf : Fpath → Option (String × String)) (fs : FS) (db : DB)
    (hdb : statusWF db) : statusWF (scanDirectory fp dateOf fs db).1 := by
  unfold scanDirectory
  have hcol : statusWF (collectFiles fp fs db).2 :=
    statusWF_collectFilesGo fp fs _ _ hdb
  by_cases hempty : (collectFiles fp fs db).1.isEmpty
  · simp only [hempty, if_true]
    exact hcol
  · simp only [hempty, Bool.false_eq_true, if_false]
    exact statusWF_processFilesParallel fp dateOf _ _ _ hcol

theorem stats_identity : ∀ db : DB, statusWF db →
    (getStatistics db).totalFiles =
      (getStatistics db).processedFiles + (getStatistics db).duplicateFiles +
      (getStatistics db).unsupportedFiles + (getStatistics db).errorFiles := by
  intro db
  induction db with
  | nil => intro _; rfl
  | cons r t ih =>
      intro h
      have ht := ih (fun x hx => h x (List.mem_cons_of_mem _ hx))
      have hr := h r (List.mem_cons_self r t)
      simp only [getStatistics, List.length_cons, List.countP_cons] at ht ⊢
      cases hs : r.status
      · simp only [hs]
        simp
        omega
      · simp only [hs]
        simp
        omega
      · simp only [hs]
        simp
        omega
      · simp only [hs]
        simp
        omega
      · simp only [hs]
        simp
        omega
      · exact absurd hs hr

/-- C4.  Count conservation: for every completed run, the statistics
reported by `get_statistics` satisfy
`totalFiles = processedFiles + duplicateFiles + unsupportedFiles +
errorFiles` — every row the pipeline ever appends carries one of the five
counted statuses, and the counters are read-time aggregates of the rows. -/
theorem c4_count_conservation (fp : FileProcessor)
    (dateOf : Fpath → Option (String × String)) (fs : FS) (db : DB)
    (hdb : ∀ r ∈ db, r.status ≠ Status.existing) :
    (getStatistics (scanDirectory fp dateOf fs db).1).totalFiles =
      (getStatistics (scanDirectory fp dateOf fs db).1).processedFiles +
      (getStatistics (scanDirectory fp dateOf fs db).1).duplicateFiles +
      (getStatistics (scanDirectory fp dateOf fs db).1).unsupportedFiles +
      (getStatistics (scanDirectory fp dateOf fs db).1).errorFiles :=
  stats_identity _ (statusWF_scanDirectory fp dateOf fs db hdb)

theorem recordsWithDigest_append (db : DB) (r : FileRecord) (d : Digest) :
    recordsWithDigest (db ++ [r]) d =
      recordsWithDigest db d ++ (if r.hash = some d then [r] else []) := by
  unfold recordsWithDigest
  rw [List.filter_append]
  by_cases hr : r.hash = some d
  · simp [hr]
  · simp [hr]

theorem isDuplicate_false_iff (db : DB) (d : Digest) :
    isDuplicate db (some d) = false ↔ recordsWithDigest db d = [] := by
  have hred : isDuplicate db (some d) = db.any (fun r => decide (r.hash = some d)) := rfl
  rw [hred]
  unfold recordsWithDigest
  constructor
  · intro h
    apply List.filter_eq_nil_iff.mpr
    intro a ha hpa
    have htrue : db.any (fun r => decide (r.hash = some d)) = true :=
      List.any_eq_true.mpr ⟨a, ha, hpa⟩
    rw [htrue] at h
    cases h
  · intro h
    cases hval : db.any (fun r => decide (r.hash = some d)) with
    | false => rfl
    | true =>
        obtain ⟨a, ha, hpa⟩ := List.any_eq_true.mp hval
        have hmem : a ∈ db.filter (fun r => decide (r.hash = some d)) :=
          List.mem_filter.mpr ⟨ha, hpa⟩
        rw [h] at hmem
        cases hmem

theorem digestInvariant_append (db : DB) (r : FileRecord) (hinv : digestInvariant db)
    (hcase : ∀ d, r.hash = some d →
      (if isDuplicate db (some d) then r.status = Status.duplicate
       else primaryStatusB r.status = true)) :
    digestInvariant (db ++ [r]) := by
  intro d
  have hd := hinv d
  unfold digestOkB at hd ⊢
  rw [recordsWithDigest_append]
  by_cases hr : r.hash = some d
  · have hc := hcase d hr
    rw [if_pos hr]
    cases hflt : recordsWithDigest db d with
    | nil =>
        have hdup : isDuplicate db (some d) = false := (isDuplicate_false_iff db d).mpr hflt
        rw [hdup] at hc
        simp only [Bool.false_eq_true, if_false] at hc
        simp [hc]
    | cons x xs =>
        have hdup : isDuplicate db (some d) = true := by
          cases hval : isDuplicate db (some d)
          · rw [(isDuplicate_false_iff db d).mp hval] at hflt
            cases hflt
          · rfl
        rw [hdup, if_pos rfl] at hc
        rw [hflt] at hd
        rw [Bool.and_eq_true] at hd
        simp only [List.cons_append]
        rw [Bool.and_eq_true]
        refine ⟨hd.1, ?_⟩
        rw [List.all_append]
        rw [Bool.and_eq_true]
        exact ⟨hd.2, by simp [hc]⟩
  · rw [if_neg hr]
    simpa using hd

theorem digestInvariant_organizeFile (fp : FileProcessor) (fs : FS) (db : DB)
    (path : Fpath) (media year month : String) (h : Option Digest)
    (hinv : digestInvariant db) :
    digestInvariant (organizeFile fp fs db path media year month h).2.1 := by
  unfold organizeFile
  obtain ⟨rec, hshape, hhash, hstatus⟩ :=
    organizeCommit_record fp fs db path media year month h (isDuplicate db h)
  rw [hshape]
  apply digestInvariant_append db rec hinv
  intro d hd
  rw [hhash] at hd
  rw [hd] at hstatus
  cases hdup : isDuplicate db (some d)
  · simp only [Bool.false_eq_true, if_false]
    rw [hdup] at hstatus
    simp only [Bool.false_eq_true, if_false] at hstatus
    rw [hstatus]
    cases fp.dryRun <;> simp [primaryStatusB]
  · simp only [if_true]
    rw [hdup] at hstatus
    simp only [if_true] at hstatus
    exact hstatus

theorem digestInvariant_none_append (db : DB) (r : FileRecord)
    (hinv : digestInvariant db) (hr : r.hash = none) :
    digestInvariant (db ++ [r]) := by
  apply digestInvariant_append db r hinv
  intro d hd
  rw [hr] at hd
  cases hd

theorem digestInvariant_processSingleFile (fp : FileProcessor)
    (dateOf : Fpath → Option (String × String)) (fs : FS) (db : DB) (p : Fpath)
    (hinv : digestInvariant db) :
    digestInvariant (processSingleFile fp fs db p dateOf).2.1 := by
  cases hc : fp.config? with
  | none =>
      simp only [processSingleFile, hc]
      exact digestInvariant_none_append db _ hinv rfl
  | some cfg =>
      simp only [processSingleFile, hc]
      exact digestInvariant_organizeFile fp fs db p _ _ _ _ hinv

theorem digestInvariant_processFilesParallel (fp : FileProcessor)
    (dateOf : Fpath → Option (String × String)) :
    ∀ (files : List Fpath) (fs : FS) (db : DB), digestInvariant db →
      digestInvariant (processFilesParallel fp dateOf files fs db).1 := by
  intro files
  induction files with
  | nil => intro fs db hinv; exact hinv
  | cons p rest ih =>
      intro fs db hinv
      simp only [processFilesParallel]
      exact ih _ _ (digestInvariant_processSingleFile fp dateOf fs db p hinv)

theorem digestInvariant_collectFilesGo (fp : FileProcessor) (fs : FS) :
    ∀ (l : List Fpath) (acc : List Fpath × DB), digestInvariant acc.2 →
      digestInvariant (collectFilesGo fp fs l acc).2 := by
  intro l
  induction l with
  | nil => intro acc hacc; exact hacc
  | cons p rest ih =>
      intro acc hacc
      simp only [collectFilesGo]
      apply ih
      by_cases hskip : shouldSkipPath fp p = true
      · simp [hskip, hacc]
      · simp only [Bool.not_eq_true] at hskip
        by_cases hfile : fs.isFile p = true
        · by_cases hsupp : isSupportedName fp.supportedExtensions p = true
          · simp [hskip, hfile, hsupp, hacc]
          · simp only [Bool.not_eq_true] at hsupp
            simp only [hskip, hfile, hsupp]
            simp only [Bool.false_eq_true, if_false, if_true]
            exact digestInvariant_none_append _ _ hacc rfl
        · simp only [Bool.not_eq_true] at hfile
          simp [hskip, hfile, hacc]

theorem digestInvariant_scanDirectory (fp : FileProcessor)
    (dateOf : Fpath → Option (String × String)) (fs : FS) (db : DB)
    (hinv : digestInvariant db) : digestInvariant (scanDirectory fp dateOf fs db).1 := by
  unfold scanDirectory
  have hcol : digestInvariant (collectFiles fp fs db).2 :=
    digestInvariant_collectFilesGo fp fs _ _ hinv
  by_cases hempty : (collectFiles fp fs db).1.isEmpty
  · simp only [hempty, if_true]
    exact hcol
  · simp only [hempty, Bool.false_eq_true, if_false]
    exact digestInvariant_processFilesParallel fp dateOf _ _ _ hcol

/-- C5 (amended).  The digest-uniqueness invariant — among rows sharing an
equal non-null digest, exactly the first-inserted row is primary and every
later one is `Duplicate` — holds after every append when per-file
duplicate-lookup/append pairs do not interleave: each `_organize_file`
append, and any whole sequential run, preserves it.  The code performs the
lookup (line 374) outside the `_db_lock` held for the append (line 399),
so interleaved workers are not covered — see the counterexample. -/
theorem c5_amended_sequential_invariant (fp : FileProcessor)
    (dateOf : Fpath → Option (String × String)) (fs : FS) (db : DB)
    (path : Fpath) (media year month : String) (h : Option Digest)
    (hinv : digestInvariant db) :
    digestInvariant (organizeFile fp fs db path media year month h).2.1 ∧
    digestInvariant (scanDirectory fp dateOf fs db).1 :=
  ⟨digestInvariant_organizeFile fp fs db path media year month h hinv,
   digestInvariant_scanDirectory fp dateOf fs db hinv⟩

/-- C8.  Eager validation: a missing or non-directory source, equal source
and destination, or either directory nested inside the other, makes
`validate_config` fail with a diagnostic, and `main` then returns before
any pre-scan, scan or per-file processing. -/
theorem c8_eager_validation_abort (fs : FS) (cfg : AppConfig) (mode : String)
    (dryRun : Bool) (hwf : FS.wf fs)
    (hbad : fs.existsPath cfg.source = false ∨ fs.isDir cfg.source = false ∨
      cfg.source = cfg.destination ∨ cfg.source.isPrefixOf cfg.destination = true ∨
      cfg.destination.isPrefixOf cfg.source = true) :
    (∃ msg, validateConfig fs cfg = Except.error msg) ∧
    mainPhases fs cfg mode dryRun = [] := by
  have herr : ∃ msg, validateConfig fs cfg = Except.error msg := by
    by_cases h1 : fs.existsPath cfg.source = false
    · exact ⟨_, by unfold validateConfig; rw [if_pos h1]⟩
    · by_cases h2 : fs.isDir cfg.source = false
      · exact ⟨_, by unfold validateConfig; rw [if_neg h1, if_pos h2]⟩
      · by_cases h3 : cfg.source = cfg.destination
        · exact ⟨_, by unfold validateConfig; rw [if_neg h1, if_neg h2, if_pos h3]⟩
        · by_cases h4 : cfg.source.isPrefixOf cfg.destination = true
          · refine ⟨"La destinazione e una sottodirectory della sorgente", ?_⟩
            unfold validateConfig
            rw [if_neg h1, if_neg h2, if_neg h3, if_pos h4]
          · have h5 : (fs.existsPath cfg.destination &&
                cfg.destination.isPrefixOf cfg.source) = true := by
              rcases hbad with hb | hb | hb | hb | hb
              · exact absurd hb h1
              · exact absurd hb h2
              · exact absurd hb h3
              · exact absurd hb h4
              · rw [Bool.and_eq_true]
                refine ⟨?_, hb⟩
                have hsrc : fs.existsPath cfg.source = true := by
                  cases hv : fs.existsPath cfg.source
                  · exact absurd hv h1
                  · rfl
                apply hwf cfg.source hsrc cfg.destination hb
                intro he
                exact h3 he.symm
            refine ⟨"La sorgente e una sottodirectory della destinazione", ?_⟩
            unfold validateConfig
            rw [if_neg h1, if_neg h2, if_neg h3, if_neg h4, if_pos h5]
  obtain ⟨msg, hmsg⟩ := herr
  refine ⟨⟨msg, hmsg⟩, ?_⟩
  unfold mainPhases
  rw [hmsg]

/-- C3 counterexample.  Fingerprinting fails for the file (the digest is
`None`), yet the pipeline emits no `Error` record and does not stop: it
runs the duplicate check and placement, and records the file as
`Simulated` with a null digest. -/
theorem c3_counterexample_failed_digest_recorded :
    (computeHash fsC3 ["s", "x.jpg"] {}).2 = none ∧
    processSingleFile fpC3 fsC3 [] ["s", "x.jpg"] (fun _ => some ("2020", "05")) =
      (ProcOutcome.ok Status.simulated "PHOTO",
       [{ originalPath := ["s", "x.jpg"], hash := none, year := some "2020",
          month := some "05", mediaType := some "PHOTO", status := Status.simulated,
          destinationPath := some ["d", "PHOTO", "2020", "05", "x.jpg"],
          finalName := some "x.jpg" }], fsC3) ∧
    Status.simulated ≠ Status.error := by decide

/-- C5 counterexample.  The duplicate lookup (outside `_db_lock`) and the
record append (inside it) are separately atomic, so the interleaving
check₀, check₁, insert₀, insert₁ is a possible execution; it leaves two
rows with the same non-null digest both carrying a primary status,
violating the invariant as stated. -/
theorem c5_counterexample_race :
    ¬ digestInvariant (runSchedule fpC5 tasksC5 [0, 1, 0, 1]
        ([WPhase.beforeCheck, WPhase.beforeCheck], [], ⟨[], []⟩)).2.1 := by
  intro hinv
  exact absurd (hinv [7]) (by decide)

theorem length_asString (l : List Char) : (List.asString l).length = l.length := rfl

theorem length_toList (s : String) : s.toList.length = s.length := rfl

theorem splitStemSuffixL_append (cs : List Char) :
    (splitStemSuffixL cs).1 ++ (splitStemSuffixL cs).2 = cs := by
  unfold splitStemSuffixL
  cases lastDotIdx cs with
  | none => simp
  | some i =>
      by_cases h : 0 < i ∧ i + 1 < cs.length
      · simp [h]
      · simp [h]

theorem stemSuffix_length (s : String) :
    (splitStemSuffix s).1.length + (splitStemSuffix s).2.length = s.length := by
  unfold splitStemSuffix
  rw [length_asString, length_asString, ← length_toList]
  have h := congrArg List.length (splitStemSuffixL_append s.toList)
  rw [List.length_append] at h
  exact h

theorem candNext_length_lt (name : String) (k : Nat) :
    name.length < (candNext name k).length := by
  unfold candNext
  rw [String.length_append, String.length_append, String.length_append]
  have h := stemSuffix_length name
  have h2 : ("__" : String).length = 2 := rfl
  omega

theorem countP_lt_of_strict {α : Type} (l : List α) (p q : α → Bool) (x : α)
    (hx : x ∈ l) (hpx : p x = true) (hqx : q x = false)
    (himp : ∀ y, q y = true → p y = true) :
    l.countP q < l.countP p := by
  induction l with
  | nil => cases hx
  | cons a t ih =>
      rw [List.countP_cons, List.countP_cons]
      rcases List.mem_cons.mp hx with h | h
      · subst h
        rw [hpx, hqx]
        have hle : t.countP q ≤ t.countP p := by
          apply List.countP_mono_left
          intro y _ hqy
          exact himp y hqy
        simp
        omega
      · have hlt := ih h
        by_cases hqa : q a = true
        · rw [hqa, himp a hqa]
          omega
        · have hqa2 : q a = false := by
            cases hv : q a
            · rfl
            · exact absurd hv hqa
          rw [hqa2]
          by_cases hpa : p a = true
          · rw [hpa]
            simp
            omega
          · have hpa2 : p a = false := by
              cases hv : p a
              · rfl
              · exact absurd hv hpa
            rw [hpa2]
            simp
            omega

theorem getLastD_concat2 {α : Type} (l : List α) (a d : α) : (l ++ [a]).getLastD d = a := by
  simp

theorem safeCopyNameGo_fresh (fs : FS) (destDir : Fpath) :
    ∀ (fuel : Nat) (name : String) (k : Nat), probeCount fs destDir name < fuel →
      fs.existsPath (destDir ++ [safeCopyNameGo fs destDir fuel name k]) = false := by
  intro fuel
  induction fuel with
  | zero => intro name k h; exact absurd h (Nat.not_lt_zero _)
  | succ n ih =>
      intro name k h
      by_cases hex : fs.existsPath (destDir ++ [name]) = true
      · simp only [safeCopyNameGo]
        rw [if_pos hex]
        apply ih
        have hmem : destDir ++ [name] ∈ fs.allPaths := of_decide_eq_true hex
        have hlt : probeCount fs destDir (candNext name k) < probeCount fs destDir name := by
          apply countP_lt_of_strict _ _ _ (destDir ++ [name]) hmem
          · rw [Bool.and_eq_true]
            refine ⟨decide_eq_true (dropLast_concat2 destDir name), ?_⟩
            apply decide_eq_true
            rw [getLastD_concat2]
          · have hnle : ¬ ((candNext name k).length ≤ name.length) := by
              have := candNext_length_lt name k
              omega
            rw [getLastD_concat2]
            simp [hnle]
          · intro y hqy
            rw [Bool.and_eq_true] at hqy ⊢
            refine ⟨hqy.1, ?_⟩
            have h2 := of_decide_eq_true hqy.2
            apply decide_eq_true
            have h3 := candNext_length_lt name k
            omega
        omega
      · simp only [safeCopyNameGo]
        rw [if_neg hex]
        exact Bool.eq_false_iff.mpr hex

theorem safeCopyName_fresh (fs : FS) (destDir : Fpath) (base : String) :
    fs.existsPath (destDir ++ [safeCopyName fs destDir base]) = false := by
  apply safeCopyNameGo_fresh
  have hle : probeCount fs destDir base ≤ fs.allPaths.length := List.countP_le_length _
  omega

theorem safeCopyNameGo_chain (fs : FS) (destDir : Fpath) (base : String) :
    ∀ (fuel j : Nat), ∃ m, j ≤ m ∧
      safeCopyNameGo fs destDir fuel (iterCand base j) (j + 1) = iterCand base m ∧
      ∀ i, j ≤ i → i < m → fs.existsPath (destDir ++ [iterCand base i]) = true := by
  intro fuel
  induction fuel with
  | zero =>
      intro j
      exact ⟨j, Nat.le_refl j, rfl, fun i h1 h2 => by omega⟩
  | succ n ih =>
      intro j
      by_cases hex : fs.existsPath (destDir ++ [iterCand base j]) = true
      · obtain ⟨m, hm1, hm2, hm3⟩ := ih (j + 1)
        refine ⟨m, by omega, ?_, ?_⟩
        · simp only [safeCopyNameGo]
          rw [if_pos hex]
          exact hm2
        · intro i h1 h2
          by_cases hij : i = j
          · rw [hij]
            exact hex
          · exact hm3 i (by omega) h2
      · refine ⟨j, Nat.le_refl j, ?_, fun i h1 h2 => by omega⟩
        simp only [safeCopyNameGo]
        rw [if_neg hex]

theorem find?_append_or {α : Type} (l₁ l₂ : List α) (p : α → Bool) :
    (l₁ ++ l₂).find? p = ((l₁.find? p).orElse (fun _ => l₂.find? p)) := by
  induction l₁ with
  | nil => simp [Option.orElse]
  | cons a t ih =>
      by_cases h : p a = true
      · simp [List.find?, h, Option.orElse]
      · have h2 : p a = false := by
          cases hv : p a
          · rfl
          · exact absurd hv h
        simp [List.find?, h2, ih]

/-- C9 (amended).  `safe_copy` never overwrites: the path it writes did
not exist beforehand, every other path keeps its prior content, the
written path (holding the source's content) is the one returned, and the
final name is the first free candidate of the sequence
base, base__1, base__1__2, ... — each step appending `__k` to the stem of
the *previous candidate* (not `base__k` with the smallest free `k`). -/
theorem c9_amended_safe_copy (fs : FS) (srcPath destDir : Fpath) (baseName : String) :
    fs.existsPath (safeCopy fs srcPath destDir baseName).2 = false ∧
    (safeCopy fs srcPath destDir baseName).2 =
      destDir ++ [safeCopyName fs destDir baseName] ∧
    (∀ p, p ≠ (safeCopy fs srcPath destDir baseName).2 →
      (safeCopy fs srcPath destDir baseName).1.read p = fs.read p) ∧
    (safeCopy fs srcPath destDir baseName).1.read (safeCopy fs srcPath destDir baseName).2 =
      some ((fs.read srcPath).getD []) ∧
    (∃ m, safeCopyName fs destDir baseName = iterCand baseName m ∧
      ∀ i, i < m → fs.existsPath (destDir ++ [iterCand baseName i]) = true) := by
  have hfresh : fs.existsPath (destDir ++ [safeCopyName fs destDir baseName]) = false :=
    safeCopyName_fresh fs destDir baseName
  refine ⟨hfresh, rfl, ?_, ?_, ?_⟩
  · intro p hp
    unfold safeCopy at hp ⊢
    simp only at hp ⊢
    unfold FS.read
    simp only
    rw [find?_append_or]
    cases hfind : fs.files.find? (fun e => decide (e.1 = p)) with
    | some e => simp [Option.orElse]
    | none =>
        simp only [Option.orElse, Option.map]
        have hne : decide ((destDir ++ [safeCopyName fs destDir baseName], (fs.read srcPath).getD []).1 = p) = false := by
          apply decide_eq_false
          intro heq
          exact hp (heq ▸ rfl)
        simp [List.find?, hne]
  · unfold safeCopy
    simp only
    unfold FS.read
    simp only
    rw [find?_append_or]
    have hnone : fs.files.find?
        (fun e => decide (e.1 = destDir ++ [safeCopyName fs destDir baseName])) = none := by
      apply List.find?_eq_none.mpr
      intro e he hpe
      have heq := of_decide_eq_true hpe
      have hmem : destDir ++ [safeCopyName fs destDir baseName] ∈ fs.allPaths := by
        unfold FS.allPaths
        apply List.mem_append_left
        rw [← heq]
        exact List.mem_map_of_mem Prod.fst he
      rw [(by exact decide_eq_true hmem : fs.existsPath
        (destDir ++ [safeCopyName fs destDir baseName]) = true)] at hfresh
      cases hfresh
    rw [hnone]
    simp [List.find?, Option.orElse]
  · obtain ⟨m, _, hm2, hm3⟩ := safeCopyNameGo_chain fs destDir baseName
      (fs.allPaths.length + 1) 0
    exact ⟨m, hm2, fun i h2 => hm3 i (Nat.zero_le i) h2⟩

theorem organizeCommit_status (fp : FileProcessor) (fs : FS) (db : DB) (path : Fpath)
    (media year month : String) (h : Option Digest) (d : Bool) :
    (organizeCommit fp fs db path media year month h d).1 =
      (if d then Status.duplicate
       else if fp.dryRun then Status.simulated else Status.copied) := by
  cases d <;> by_cases hdry : fp.dryRun = true
  · unfold organizeCommit
    rw [hdry]
    simp
  · simp only [Bool.not_eq_true] at hdry
    unfold organizeCommit
    rw [hdry]
    simp
  · unfold organizeCommit
    rw [hdry]
    simp
  · simp only [Bool.not_eq_true] at hdry
    unfold organizeCommit
    rw [hdry]
    simp

/-- C1.  Merge pre-seeding (`pre_scan_destination` modelled from the spec,
since `main` calls it but the repository never defines it): once every
supported destination file's digest is pre-inserted with status
`Existing`, processing a source file that is byte-identical to a
destination file — hence with an equal digest — classifies it
`duplicate`, never `copied`, in both real and dry-run modes. -/
theorem c1_merge_preseed_duplicate (fp : FileProcessor) (cfg : Config) (fs : FS)
    (db : DB) (destFile srcFile : Fpath) (content : List Nat)
    (media year month : String)
    (hpre : fp.destDir.isPrefixOf destFile = true)
    (hsupp : isSupportedName fp.supportedExtensions destFile = true)
    (hdest : fs.read destFile = some content)
    (hsrc : fs.read srcFile = some content) :
    (organizeFile fp fs (preScanDestination fp cfg fs db) srcFile media year month
        ((computeHash fs srcFile cfg).2)).1 = Status.duplicate ∧
    (organizeFile fp fs (preScanDestination fp cfg fs db) srcFile media year month
        ((computeHash fs srcFile cfg).2)).1 ≠ Status.copied := by
  have hhash : (computeHash fs srcFile cfg).2 = some content := hsrc
  have hentry : ∃ e ∈ fs.files, e.1 = destFile ∧ e.2 = content := by
    unfold FS.read at hdest
    cases hfind : fs.files.find? (fun e => decide (e.1 = destFile)) with
    | none =>
        rw [hfind] at hdest
        cases hdest
    | some e =>
        rw [hfind] at hdest
        have hmem := List.mem_of_find?_eq_some hfind
        have hpred := List.find?_some hfind
        have he1 : e.1 = destFile := of_decide_eq_true hpred
        have he2 : e.2 = content := by
          simp only [Option.map_some'] at hdest
          exact Option.some.inj hdest
        exact ⟨e, hmem, he1, he2⟩
  obtain ⟨e, hemem, he1, he2⟩ := hentry
  have hrec : ∃ r ∈ preScanDestination fp cfg fs db, r.hash = some content := by
    refine ⟨{ originalPath := e.1
            , hash := (computeHash fs e.1 cfg).2
            , status := Status.existing }, ?_, ?_⟩
    · unfold preScanDestination
      apply List.mem_append_right
      refine List.mem_map.mpr ⟨e, ?_, rfl⟩
      apply List.mem_filter.mpr
      refine ⟨hemem, ?_⟩
      rw [Bool.and_eq_true, he1]
      exact ⟨hpre, hsupp⟩
    · show (computeHash fs e.1 cfg).2 = some content
      rw [he1]
      exact hdest
  have hdup : isDuplicate (preScanDestination fp cfg fs db) (some content) = true := by
    obtain ⟨r, hrm, hrh⟩ := hrec
    exact List.any_eq_true.mpr ⟨r, hrm, decide_eq_true hrh⟩
  rw [hhash]
  unfold organizeFile
  rw [hdup, organizeCommit_status]
  simp

/-- C6.  Dry-run purity: the store is the transient in-memory database
(`":memory:"`), whose initialisation touches no directory, and the whole
scan leaves the filesystem — destination tree included — exactly as it
was: no file copied, no directory created. -/
theorem c6_dry_run_purity (databasePath : Fpath) (fp : FileProcessor)
    (dateOf : Fpath → Option (String × String)) (fs : FS) (db : DB)
    (hdry : fp.dryRun = true) :
    initializeDatabase databasePath true = DbTarget.memory ∧
    dbManagerInitFs fs (initializeDatabase databasePath true) = fs ∧
    (scanDirectory fp dateOf fs db).2 = fs :=
  ⟨rfl, rfl, scanDirectory_dry_fs fp hdry dateOf fs db⟩

theorem c1_merge_preseed_duplicate_witness :
    (organizeFile fpW1 fsW1 (preScanDestination fpW1 {} fsW1 []) ["src", "b.jpg"]
        "PHOTO" "2020" "05" ((computeHash fsW1 ["src", "b.jpg"] {}).2)).1 =
      Status.duplicate :=
  (c1_merge_preseed_duplicate fpW1 {} fsW1 [] ["dst", "a.jpg"] ["src", "b.jpg"] [1, 2]
    "PHOTO" "2020" "05" (by decide) (by decide) (by decide) (by decide)).1

theorem c4_count_conservation_witness :
    (getStatistics (scanDirectory fpW4 (fun _ => none) fsW4 []).1).totalFiles =
      (getStatistics (scanDirectory fpW4 (fun _ => none) fsW4 []).1).processedFiles +
      (getStatistics (scanDirectory fpW4 (fun _ => none) fsW4 []).1).duplicateFiles +
      (getStatistics (scanDirectory fpW4 (fun _ => none) fsW4 []).1).unsupportedFiles +
      (getStatistics (scanDirectory fpW4 (fun _ => none) fsW4 []).1).errorFiles :=
  c4_count_conservation fpW4 (fun _ => none) fsW4 [] (by simp)

theorem c5_amended_sequential_invariant_witness :
    digestInvariant
        (organizeFile fpW5 fsW5 [] ["s", "x.jpg"] "PHOTO" "2020" "05" (some [3])).2.1 ∧
    digestInvariant (scanDirectory fpW5 (fun _ => some ("2020", "05")) fsW5 []).1 :=
  c5_amended_sequential_invariant fpW5 (fun _ => some ("2020", "05")) fsW5 []
    ["s", "x.jpg"] "PHOTO" "2020" "05" (some [3]) (fun _ => rfl)

theorem c6_dry_run_purity_witness :
    initializeDatabase ["db"] true = DbTarget.memory ∧
    dbManagerInitFs fsW6 (initializeDatabase ["db"] true) = fsW6 ∧
    (scanDirectory fpW6 (fun _ => none) fsW6 []).2 = fsW6 :=
  c6_dry_run_purity ["db"] fpW6 (fun _ => none) fsW6 [] rfl

theorem fsW8_wf : FS.wf fsW8 := by
  intro p hp q hq hne
  have hmem : p ∈ fsW8.allPaths := of_decide_eq_true hp
  have hpnil : p = [] := by
    simpa [fsW8, FS.allPaths] using hmem
  rw [hpnil] at hq hne
  have hqnil : q = [] := by
    cases q with
    | nil => rfl
    | cons a t => simp [List.isPrefixOf] at hq
  exact absurd hqnil hne

theorem c8_eager_validation_abort_witness :
    (∃ msg, validateConfig fsW8 cfgW8 = Except.error msg) ∧
    mainPhases fsW8 cfgW8 "merge" false = [] :=
  c8_eager_validation_abort fsW8 cfgW8 "merge" false fsW8_wf (Or.inl (by decide))

theorem c9_amended_safe_copy_witness :
    fsW9.existsPath (safeCopy fsW9 ["s", "x"] ["d"] "a.jpg").2 = false ∧
    ["d", "a.jpg"] ≠ (safeCopy fsW9 ["s", "x"] ["d"] "a.jpg").2 ∧
    (safeCopy fsW9 ["s", "x"] ["d"] "a.jpg").1.read ["d", "a.jpg"] =
      fsW9.read ["d", "a.jpg"] :=
  ⟨(c9_amended_safe_copy fsW9 ["s", "x"] ["d"] "a.jpg").1,
   by decide,
   (c9_amended_safe_copy fsW9 ["s", "x"] ["d"] "a.jpg").2.2.1 ["d", "a.jpg"] (by decide)⟩

theorem c10_hidden_ancestor_skips_all_witness :
    collectFiles fpW10 fsW10 [] = ([], []) ∧
    scanDirectory fpW10 (fun _ => none) fsW10 [] = ([], fsW10) :=
  c10_hidden_ancestor_skips_all fpW10 fsW10 [] (fun _ => none) rfl
    ⟨".hidden", by decide, by decide⟩

/-- C9 counterexample.  With `a.jpg` and `a__1.jpg` both present, the
smallest `k ≥ 1` whose `a__k.jpg` is free is `k = 2`, so the claim
predicts `a__2.jpg`; the loop instead recomputes the stem from the
previous candidate and writes `a__1__2.jpg`. -/
theorem c9_counterexample_nested_suffix :
    (safeCopy fsC9 ["s", "x"] ["d"] "a.jpg").2 = ["d", "a__1__2.jpg"] ∧
    (safeCopy fsC9 ["s", "x"] ["d"] "a.jpg").2 ≠ ["d", "a__2.jpg"] ∧
    fsC9.existsPath ["d", "a.jpg"] = true ∧
    fsC9.existsPath ["d", "a__1.jpg"] = true ∧
    fsC9.existsPath ["d", "a__2.jpg"] = false := by decide
